import Mathlib

/-!
Verification development for the Smart Volume Radar stock scanner.

The TypeScript sources are shallowly embedded in Lean 4: JavaScript numbers
are modelled as rationals; where IEEE non-finite values (NaN, Infinity) can
arise and matter, a number is modelled as an optional rational, with the
absent value standing for the non-finite result. Fallible operations return
Option or Except. All definitions are translated from the source files; the
definitions whose names end in Claim follow the wording of the specification
and are compared with the source translations.
-/

namespace SVR

/-! ## Indicator library (utils/technicalAnalysis.ts) -/

/-- Translation of calculateSMA: mean of the last n elements, or no value
when fewer than n elements exist. -/
def calculateSMA (prices : List ℚ) (periods : ℕ) : Option ℚ :=
  if prices.length < periods then none
  else
    let slice := prices.drop (prices.length - periods)
    some (slice.sum / periods)

/-- Consecutive differences of a price series: entry i is prices[i+1] - prices[i].
The source loops over indices; folding over this list is the same computation. -/
def deltas (prices : List ℚ) : List ℚ :=
  List.zipWith (fun a b => a - b) prices.tail prices

/-- Gain contribution of one delta (diff >= 0 ? diff : 0). -/
def gainOf (d : ℚ) : ℚ := if 0 ≤ d then d else 0

/-- Loss contribution of one delta, as a positive magnitude (diff < 0 ? -diff : 0). -/
def lossOf (d : ℚ) : ℚ := if d < 0 then -d else 0

/-- One iteration of the Wilder smoothing loop of calculateRSI:
avg = (avg * (periods - 1) + current) / periods, applied to gain and loss. -/
def rsiStep (periods : ℕ) (avg : ℚ × ℚ) (d : ℚ) : ℚ × ℚ :=
  ((avg.1 * ((periods : ℚ) - 1) + gainOf d) / periods,
   (avg.2 * ((periods : ℚ) - 1) + lossOf d) / periods)

/-- Translation of calculateRSI (Wilder smoothing version of the technical
analysis utility): initial averages are the simple means of the first
periods deltas; each later delta updates the averages by the Wilder
recurrence; series with fewer than periods + 1 entries give no value. -/
def calculateRSI (prices : List ℚ) (periods : ℕ) : Option ℚ :=
  if prices.length < periods + 1 then none
  else
    let ds := deltas prices
    let init : ℚ × ℚ :=
      (((ds.take periods).map gainOf).sum / periods,
       ((ds.take periods).map lossOf).sum / periods)
    let fin := (ds.drop periods).foldl (rsiStep periods) init
    if fin.2 = 0 then some 100
    else some (100 - 100 / (1 + fin.1 / fin.2))

/-- Maximum of a list with a default head (the source applies Math.max to a
list that is nonempty at every use site). -/
def listMax (l : List ℚ) : ℚ :=
  match l with
  | [] => 0
  | x :: xs => xs.foldl max x

/-- Result record of calculate52wHighAndConsolidation. -/
structure ConsolidationInfo where
  ath : ℚ
  pctFromAth : ℚ
  monthsInConsolidation : ℚ
  deriving DecidableEq, Repr

/-- Index of the first element satisfying the predicate, if any. -/
def firstIdx {α : Type} (p : α → Bool) : List α → Option ℕ
  | [] => Option.none
  | x :: xs => if p x then some 0 else (firstIdx p xs).map (· + 1)

/-- Trading days since the last close at or above the threshold: the source
scans the window backward for the most recent index whose close reaches the
threshold, so the distance from the end is the first matching index of the
reversed window; when no index qualifies it falls back to the whole window
length minus one. -/
def tradingDaysSince (lookback : List ℚ) (threshold : ℚ) : ℕ :=
  match firstIdx (fun c => threshold ≤ c) lookback.reverse with
  | some j => j
  | Option.none => lookback.length - 1

/-- Translation of calculate52wHighAndConsolidation: needs at least 22
closes; looks back over the last 252 entries; the peak-touch threshold is
98 percent of the window peak. -/
def calculate52wHighAndConsolidation (closes : List ℚ) : Option ConsolidationInfo :=
  if closes.length < 22 then none
  else
    let lookback := closes.drop (closes.length - 252)
    let ath := listMax lookback
    let lastClose := lookback.getLast?.getD 0
    let pctFromAth := if 0 < ath then ((lastClose - ath) / ath) * 100 else 0
    some ⟨ath, pctFromAth, (tradingDaysSince lookback (ath * (98 / 100)) : ℚ) / 21⟩

/-- Translation of isNearSMA: proximity check, false when the reference
is not positive. -/
def isNearSMA (price sma thresholdPct : ℚ) : Bool :=
  if sma ≤ 0 then false
  else |price - sma| / sma * 100 ≤ thresholdPct

/-! ## Stock records and the setup classifier (types/index.ts, utils/setup.ts) -/

/-- Translation of the StockData interface fields used by the classifier and
the ranking engine. The optional booleans are Option Bool, none standing for
an undefined field of the TypeScript record (indicator not available). -/
structure StockData where
  rvol : ℚ
  priceChange : ℚ
  nearSMA21 : Option Bool := none
  nearAth : Option Bool := none
  inConsolidationWindow : Option Bool := none
  nearSMA21Close : Option Bool := none
  nearAthClose : Option Bool := none
  inConsolidationClose : Option Bool := none
  deriving DecidableEq, Repr

/-- JavaScript truthiness of an optional boolean field: undefined and false
are falsy. -/
def truthy (b : Option Bool) : Bool := b.getD false

/-- Translation of isFullSetup: near SMA21, near ATH, and inside the
consolidation window, all truthy. -/
def isFullSetup (s : StockData) : Bool :=
  truthy s.nearSMA21 && truthy s.nearAth && truthy s.inConsolidationWindow

/-- Translation of isCloseSetup: each of the three dimensions is either at
its met flag or at its close flag. -/
def isCloseSetup (s : StockData) : Bool :=
  (truthy s.nearSMA21 || truthy s.nearSMA21Close) &&
  (truthy s.nearAth || truthy s.nearAthClose) &&
  (truthy s.inConsolidationWindow || truthy s.inConsolidationClose)

/-- Aggregate setup tier; the source renders these as the emoji strings for
full, close and none. -/
inductive SetupTier where
  | full
  | close
  | none
  deriving DecidableEq, Repr

/-- Translation of getSetupStatus: full wins over close, otherwise none. -/
def getSetupStatus (s : StockData) : SetupTier :=
  if isFullSetup s then .full
  else if isCloseSetup s then .close
  else .none

/-- Numeric order on tiers, full > close > none, matching the sort boost in
calculateRVOL. -/
def tierRank : SetupTier → ℤ
  | .full => 2
  | .close => 1
  | .none => 0

/-- Tri-state evaluation of one classifier dimension as the specification
words it: a dimension whose indicator is missing (both flags undefined) is
skipped; otherwise it is met, close or far according to its flags. -/
inductive DimEval where
  | met
  | close
  | far
  | skipped
  deriving DecidableEq, Repr

/-- Evaluation of one dimension from its met flag and close flag. -/
def evalDim (metFlag closeFlag : Option Bool) : DimEval :=
  if metFlag = Option.none ∧ closeFlag = Option.none then .skipped
  else if truthy metFlag then .met
  else if truthy closeFlag then .close
  else .far

/-- Dimension evaluations of a record, in the order trend proximity, peak
proximity, base duration. -/
def dimsOf (s : StockData) : DimEval × DimEval × DimEval :=
  (evalDim s.nearSMA21 s.nearSMA21Close,
   evalDim s.nearAth s.nearAthClose,
   evalDim s.inConsolidationWindow s.inConsolidationClose)

/-- Aggregate tier as the claim words it: full iff all three dimensions are
met; close iff not full and no dimension is far (a skipped dimension
contributes neither met nor far); otherwise none. -/
def tierClaim (s : StockData) : SetupTier :=
  let d := dimsOf s
  if d.1 = .met ∧ d.2.1 = .met ∧ d.2.2 = .met then .full
  else if d.1 ≠ .far ∧ d.2.1 ≠ .far ∧ d.2.2 ≠ .far then .close
  else .none

/-- Aggregate tier as amended: full iff all three dimensions are met; close
iff not full and every dimension is met or close, so that a skipped
dimension disqualifies close as well as full; otherwise none. -/
def tierClaimAmended (s : StockData) : SetupTier :=
  let d := dimsOf s
  if d.1 = .met ∧ d.2.1 = .met ∧ d.2.2 = .met then .full
  else if (d.1 = .met ∨ d.1 = .close) ∧ (d.2.1 = .met ∨ d.2.1 = .close) ∧
          (d.2.2 = .met ∨ d.2.2 = .close) then .close
  else .none

/-- Record whose SMA21 indicator is missing while the other two dimensions
are met: the Twelve Data fallback path produces records of this shape. -/
def skippedDimStock : StockData :=
  { rvol := 3
    priceChange := 0
    nearSMA21 := Option.none
    nearSMA21Close := Option.none
    nearAth := some true
    nearAthClose := some false
    inConsolidationWindow := some true
    inConsolidationClose := some false }

/-- Classifier and the amended aggregate rule agree on every combination of
the six optional flags; the numeric fields play no role. -/
lemma tierFlagsAux : ∀ (m1 m2 m3 c1 c2 c3 : Option Bool),
    getSetupStatus ⟨0, 0, m1, m2, m3, c1, c2, c3⟩ =
      tierClaimAmended ⟨0, 0, m1, m2, m3, c1, c2, c3⟩ := by
  decide

/-- C1 counterexample: on a record whose trend dimension is skipped (missing
SMA21 indicator) while the peak and base dimensions are met, the claimed
aggregate rule yields the close tier, but the code classifies the record as
none, because a skipped dimension fails the close test too. -/
theorem c1_setup_tier_counterexample :
    tierClaim skippedDimStock = SetupTier.close ∧
    getSetupStatus skippedDimStock = SetupTier.none ∧
    getSetupStatus skippedDimStock ≠ tierClaim skippedDimStock := by
  decide

/-- C1 (amended): for every classified record the aggregate setup tier is
exactly one of full, close, none: full iff all three dimensions evaluate
met; close iff the record is not full and every dimension evaluates met or
close, so a dimension whose indicator is missing disqualifies close as well
as full; otherwise the tier is none. -/
theorem c1_setup_tier_amended (s : StockData) :
    getSetupStatus s = tierClaimAmended s := by
  rcases s with ⟨r, pc, m1, m2, m3, c1, c2, c3⟩
  exact tierFlagsAux m1 m2 m3 c1 c2 c3

/-! ## Ranking and filtering engine (rvolCalculator.ts) -/

/-- Translation of RVOLConfig. The top-N cut is a natural number, matching
the integer configuration value. -/
structure RVOLConfig where
  minRVOL : ℚ
  topN : ℕ
  priceChangeThreshold : ℚ
  deriving DecidableEq, Repr

/-- Result of calculateRVOL. -/
structure RVOLCalcResult where
  topSignals : List StockData
  volumeWithoutPrice : List StockData
  deriving DecidableEq, Repr

/-- Setup boost used by the sort comparator: 2 for a full setup, 1 for a
close setup, 0 otherwise. -/
def boost (s : StockData) : ℤ :=
  if isFullSetup s then 2 else if isCloseSetup s then 1 else 0

/-- Translation of the sort comparator of calculateRVOL: when the relative
volumes differ by at least 0.5 the volume dominates; otherwise the setup
boost breaks the tie, falling back to the volume difference. A positive
value orders a after b. -/
def compareStocks (a b : StockData) : ℚ :=
  let rvolDiff := b.rvol - a.rvol
  if 1 / 2 ≤ |rvolDiff| then (if 0 < rvolDiff then 1 else -1)
  else if boost b - boost a ≠ 0 then ((boost b - boost a : ℤ) : ℚ) else rvolDiff

/-- Comparator result at most zero: a may be placed directly before b. -/
def sortLE (a b : StockData) : Bool := decide (compareStocks a b ≤ 0)

/-- Insertion of an element into a list, before the first element that the
relation does not order after it. -/
def insertSorted {α : Type} (le : α → α → Bool) (a : α) : List α → List α
  | [] => [a]
  | b :: l => if le a b then a :: b :: l else b :: insertSorted le a l

/-- Insertion sort by a boolean relation, modelling the comparator sort of
the source; it is stable and, for a total relation, leaves no adjacent pair
that the comparator would invert. -/
def insertionSortBy {α : Type} (le : α → α → Bool) : List α → List α
  | [] => []
  | a :: l => insertSorted le a (insertionSortBy le l)

/-- Translation of calculateRVOL: filter by minimum relative volume, sort by
the comparator, truncate the signals to top N, and take the low-price-change
subset of the whole sorted filtered list. -/
def calculateRVOL (stocks : List StockData) (cfg : RVOLConfig) : RVOLCalcResult :=
  { topSignals :=
      (insertionSortBy sortLE (stocks.filter (fun s => cfg.minRVOL ≤ s.rvol))).take cfg.topN
    volumeWithoutPrice :=
      (insertionSortBy sortLE (stocks.filter (fun s => cfg.minRVOL ≤ s.rvol))).filter
        (fun s => |s.priceChange| < cfg.priceChangeThreshold) }

/-- Projection of calculateRVOL to the ranked, truncated signals. -/
lemma calculateRVOL_topSignals (stocks : List StockData) (cfg : RVOLConfig) :
    (calculateRVOL stocks cfg).topSignals =
      (insertionSortBy sortLE (stocks.filter (fun s => cfg.minRVOL ≤ s.rvol))).take cfg.topN := by
  simp only [calculateRVOL]

/-- Projection of calculateRVOL to the volume-without-price subset. -/
lemma calculateRVOL_vwp (stocks : List StockData) (cfg : RVOLConfig) :
    (calculateRVOL stocks cfg).volumeWithoutPrice =
      (insertionSortBy sortLE (stocks.filter (fun s => cfg.minRVOL ≤ s.rvol))).filter
        (fun s => |s.priceChange| < cfg.priceChangeThreshold) := by
  simp only [calculateRVOL]

/-- Membership in an insertion is membership in the inserted element or the
list. -/
lemma mem_insertSorted {α : Type} (le : α → α → Bool) (a x : α) :
    ∀ l : List α, x ∈ insertSorted le a l ↔ x = a ∨ x ∈ l := by
  intro l
  induction l with
  | nil => simp [insertSorted]
  | cons b l ih =>
      by_cases h : le a b
      · simp [insertSorted, h]
      · simp [insertSorted, h, ih]
        tauto

/-- Insertion sort preserves membership. -/
lemma mem_insertionSortBy {α : Type} (le : α → α → Bool) (x : α) :
    ∀ l : List α, x ∈ insertionSortBy le l ↔ x ∈ l := by
  intro l
  induction l with
  | nil => simp [insertionSortBy]
  | cons a l ih => simp [insertionSortBy, mem_insertSorted, ih]

/-- Inserting into a list with no adjacent inversion keeps that property,
for a total relation. -/
lemma chain'_insertSorted {α : Type} (le : α → α → Bool)
    (total : ∀ a b, le a b = true ∨ le b a = true) (a : α) :
    ∀ l : List α, List.Chain' (fun x y => le x y = true) l →
      List.Chain' (fun x y => le x y = true) (insertSorted le a l) := by
  intro l
  induction l with
  | nil => intro _; simp [insertSorted]
  | cons b l ih =>
      intro hc
      rw [List.chain'_cons'] at hc
      by_cases h : le a b
      · rw [insertSorted, if_pos h, List.chain'_cons']
        refine ⟨?_, List.chain'_cons'.mpr hc⟩
        intro y hy
        simp at hy
        subst hy
        exact h
      · rw [insertSorted, if_neg h, List.chain'_cons']
        have hba : le b a = true := (total a b).resolve_left h
        refine ⟨?_, ih hc.2⟩
        intro y hy
        cases l with
        | nil =>
            simp [insertSorted] at hy
            subst hy
            exact hba
        | cons c l' =>
            by_cases hac : le a c
            · simp [insertSorted, if_pos hac] at hy
              subst hy
              exact hba
            · simp [insertSorted, if_neg hac] at hy
              subst hy
              exact hc.1 c rfl


/-- Insertion sort by a total relation leaves no adjacent inversion. -/
lemma chain'_insertionSortBy {α : Type} (le : α → α → Bool)
    (total : ∀ a b, le a b = true ∨ le b a = true) :
    ∀ l : List α, List.Chain' (fun x y => le x y = true) (insertionSortBy le l) := by
  intro l
  induction l with
  | nil => simp [insertionSortBy]
  | cons a l ih => exact chain'_insertSorted le total a _ ih

/-- Totality of the comparator order: of two records, one may come first. -/
lemma sortLE_total : ∀ a b : StockData, sortLE a b = true ∨ sortLE b a = true := by
  intro a b
  unfold sortLE compareStocks
  simp only [decide_eq_true_eq]
  rcases le_or_lt (1 / 2 : ℚ) |b.rvol - a.rvol| with hg | hg
  · have hg' : (1 / 2 : ℚ) ≤ |a.rvol - b.rvol| := by rwa [abs_sub_comm]
    rcases le_or_lt (b.rvol - a.rvol) 0 with hd | hd
    · left
      rw [if_pos hg, if_neg (not_lt.mpr hd)]
      norm_num
    · right
      have hd' : ¬ 0 < a.rvol - b.rvol := by simp; linarith
      rw [if_pos hg', if_neg hd']
      norm_num
  · have hg' : ¬ (1 / 2 : ℚ) ≤ |a.rvol - b.rvol| := by rw [abs_sub_comm]; exact not_le.mpr hg
    rw [if_neg (not_le.mpr hg), if_neg hg']
    by_cases hB : boost b - boost a = 0
    · have hB' : boost a - boost b = 0 := by omega
      rw [if_neg (by simp [hB]), if_neg (by simp [hB'])]
      rcases le_or_lt (b.rvol - a.rvol) 0 with hd | hd
      · left; exact hd
      · right; linarith
    · by_cases hle : boost b - boost a ≤ 0
      · left
        rw [if_pos hB]
        exact_mod_cast hle
      · right
        have hB' : boost a - boost b ≠ 0 := by omega
        rw [if_pos hB']
        have : boost a - boost b ≤ 0 := by omega
        exact_mod_cast this

/-- Sort boost equals the rank of the aggregate tier. -/
lemma boost_eq_tierRank (s : StockData) : boost s = tierRank (getSetupStatus s) := by
  by_cases hf : isFullSetup s <;> by_cases hc : isCloseSetup s <;>
    simp [boost, getSetupStatus, tierRank, hf, hc]

/-- Adjacent pair accepted by the comparator: either the earlier record has
strictly greater relative volume, or the gap is below 0.5 and the earlier
tier rank is at least the later one. -/
lemma sortLE_adjacency {x y : StockData} (h : sortLE x y = true) :
    y.rvol < x.rvol ∨
      (|y.rvol - x.rvol| < 1 / 2 ∧
        tierRank (getSetupStatus y) ≤ tierRank (getSetupStatus x)) := by
  have h' : compareStocks x y ≤ 0 := by simpa [sortLE] using h
  unfold compareStocks at h'
  by_cases hg : (1 / 2 : ℚ) ≤ |y.rvol - x.rvol|
  · rw [if_pos hg] at h'
    left
    by_cases hd : 0 < y.rvol - x.rvol
    · rw [if_pos hd] at h'
      norm_num at h'
    · have hle : y.rvol - x.rvol ≤ 0 := not_lt.mp hd
      have hne : y.rvol - x.rvol ≠ 0 := by
        intro h0
        rw [h0] at hg
        norm_num at hg
      have : y.rvol - x.rvol < 0 := lt_of_le_of_ne hle hne
      linarith
  · rw [if_neg hg] at h'
    right
    refine ⟨not_le.mp hg, ?_⟩
    rw [← boost_eq_tierRank, ← boost_eq_tierRank]
    by_cases hB : boost y - boost x ≠ 0
    · rw [if_pos hB] at h'
      have : (boost y - boost x : ℤ) ≤ 0 := by exact_mod_cast h'
      omega
    · push_neg at hB
      omega

/-- C2: in the ranked signals, every adjacent pair either strictly decreases
in relative volume, or has a volume gap below 0.5 and a non-increasing
aggregate setup tier (full > close > none). -/
theorem c2_ranked_adjacent (stocks : List StockData) (cfg : RVOLConfig) :
    List.Chain'
      (fun x y => y.rvol < x.rvol ∨
        (|y.rvol - x.rvol| < 1 / 2 ∧
          tierRank (getSetupStatus y) ≤ tierRank (getSetupStatus x)))
      (calculateRVOL stocks cfg).topSignals := by
  have hch := chain'_insertionSortBy sortLE sortLE_total
    (stocks.filter (fun s => cfg.minRVOL ≤ s.rvol))
  have hpre : List.Chain' (fun x y => sortLE x y = true)
      ((insertionSortBy sortLE (stocks.filter (fun s => cfg.minRVOL ≤ s.rvol))).take cfg.topN) :=
    hch.prefix (List.take_prefix _ _)
  rw [calculateRVOL_topSignals]
  exact List.Chain'.imp (fun a b h => sortLE_adjacency h) hpre

/-- C6: every member of the ranked signals passes the minimum relative
volume filter, and the number of signals is at most top N. -/
theorem c6_signals_bounded (stocks : List StockData) (cfg : RVOLConfig)
    (_htop : 0 < cfg.topN) :
    (∀ s ∈ (calculateRVOL stocks cfg).topSignals, cfg.minRVOL ≤ s.rvol) ∧
      (calculateRVOL stocks cfg).topSignals.length ≤ cfg.topN := by
  rw [calculateRVOL_topSignals]
  constructor
  · intro s hs
    have h1 : s ∈ insertionSortBy sortLE (stocks.filter (fun s => cfg.minRVOL ≤ s.rvol)) :=
      List.take_subset _ _ hs
    have h2 : s ∈ stocks.filter (fun s => cfg.minRVOL ≤ s.rvol) :=
      (mem_insertionSortBy _ _ _).mp h1
    have := (List.mem_filter.mp h2).2
    simpa using this
  · exact List.length_take_le _ _

/-- Single qualifying record used to witness the ranking theorems. -/
def witnessStock : StockData :=
  { rvol := 3, priceChange := 5 }

/-- Configuration used to witness the ranking theorems. -/
def witnessCfg : RVOLConfig :=
  { minRVOL := 2, topN := 5, priceChangeThreshold := 2 }

/-- C6 witness at one record and a positive top N. -/
theorem c6_signals_bounded_witness :
    (∀ s ∈ (calculateRVOL [witnessStock] witnessCfg).topSignals,
        witnessCfg.minRVOL ≤ s.rvol) ∧
      (calculateRVOL [witnessStock] witnessCfg).topSignals.length ≤ witnessCfg.topN :=
  c6_signals_bounded [witnessStock] witnessCfg (by decide)

/-- C7: the volume-without-price list consists of exactly the records of the
full volume-qualified filtered set whose absolute price change is below the
threshold; it is not truncated to top N and need not be disjoint from the
signals. -/
theorem c7_volume_without_price (stocks : List StockData) (cfg : RVOLConfig)
    (s : StockData) :
    s ∈ (calculateRVOL stocks cfg).volumeWithoutPrice ↔
      s ∈ stocks ∧ cfg.minRVOL ≤ s.rvol ∧ |s.priceChange| < cfg.priceChangeThreshold := by
  rw [calculateRVOL_vwp, List.mem_filter, mem_insertionSortBy, List.mem_filter]
  simp [and_assoc]

/-! ## RSI claims -/

/-- Initial Wilder averages as the specification words them: simple means of
the first periods deltas, gains and losses tracked separately, losses as
positive magnitudes. -/
def rsiInitialAvgClaim (prices : List ℚ) (periods : ℕ) : ℚ × ℚ :=
  ((((deltas prices).take periods).map gainOf).sum / periods,
   (((deltas prices).take periods).map lossOf).sum / periods)

/-- Final Wilder averages as the specification words them: every delta after
the initial period updates each average by avg = (avg (periods - 1) +
current) / periods. -/
def wilderAveragesClaim (prices : List ℚ) (periods : ℕ) : ℚ × ℚ :=
  ((deltas prices).drop periods).foldl (rsiStep periods) (rsiInitialAvgClaim prices periods)

/-- RSI value from a pair of averages: 100 when the average loss is zero,
otherwise 100 - 100 / (1 + RS). -/
def rsiFromAverages (avg : ℚ × ℚ) : ℚ :=
  if avg.2 = 0 then 100 else 100 - 100 / (1 + avg.1 / avg.2)

/-- Characterization of calculateRSI on long enough series, shared by the
RSI claims. -/
lemma calculateRSI_eq_of_le (prices : List ℚ) (periods : ℕ)
    (h : periods + 1 ≤ prices.length) :
    calculateRSI prices periods =
      some (rsiFromAverages (wilderAveragesClaim prices periods)) := by
  have h' : ¬ prices.length < periods + 1 := not_lt.mpr h
  simp only [calculateRSI, h', if_false, rsiFromAverages, wilderAveragesClaim,
    rsiInitialAvgClaim]
  split <;> rfl

/-- C4: calculateRSI returns no value on series shorter than periods + 1,
and otherwise returns the RSI of the Wilder averages: initial averages are
the simple means of the first periods deltas and each subsequent delta
updates them by the Wilder recurrence. -/
theorem c4_rsi_wilder (prices : List ℚ) (periods : ℕ) :
    (prices.length < periods + 1 → calculateRSI prices periods = none) ∧
    (periods + 1 ≤ prices.length →
      calculateRSI prices periods =
        some (rsiFromAverages (wilderAveragesClaim prices periods))) := by
  constructor
  · intro h
    simp [calculateRSI, h]
  · intro h
    exact calculateRSI_eq_of_le prices periods h

/-- Price series of fifteen equal values, used to witness the RSI claims. -/
def flatPrices : List ℚ := List.replicate 15 1

/-- C4 witness at a concrete series of fifteen entries and the default
period of fourteen. -/
theorem c4_rsi_wilder_witness :
    calculateRSI flatPrices 14 =
      some (rsiFromAverages (wilderAveragesClaim flatPrices 14)) :=
  (c4_rsi_wilder flatPrices 14).2 (by decide)

/-- Loss magnitude of a delta is nonnegative. -/
lemma lossOf_nonneg (d : ℚ) : 0 ≤ lossOf d := by
  unfold lossOf
  split <;> linarith

/-- Gain magnitude of a delta is nonnegative. -/
lemma gainOf_nonneg (d : ℚ) : 0 ≤ gainOf d := by
  unfold gainOf
  split <;> linarith

/-- Loss magnitude is zero exactly for a nonnegative delta. -/
lemma lossOf_eq_zero_iff (d : ℚ) : lossOf d = 0 ↔ 0 ≤ d := by
  unfold lossOf
  by_cases h : d < 0
  · rw [if_pos h]
    constructor
    · intro h'
      linarith
    · intro h'
      linarith
  · rw [if_neg h]
    exact ⟨fun _ => not_lt.mp h, fun _ => rfl⟩

/-- Elements of a gain-mapped list are nonnegative. -/
lemma mem_map_gainOf_nonneg (l : List ℚ) : ∀ x ∈ l.map gainOf, 0 ≤ x := by
  intro x hx
  obtain ⟨d, _, rfl⟩ := List.mem_map.mp hx
  exact gainOf_nonneg d

/-- Elements of a loss-mapped list are nonnegative. -/
lemma mem_map_lossOf_nonneg (l : List ℚ) : ∀ x ∈ l.map lossOf, 0 ≤ x := by
  intro x hx
  obtain ⟨d, _, rfl⟩ := List.mem_map.mp hx
  exact lossOf_nonneg d

/-- Sum of loss magnitudes vanishes exactly when every delta in the list is
nonnegative. -/
lemma lossSum_eq_zero_iff : ∀ l : List ℚ, (l.map lossOf).sum = 0 ↔ ∀ d ∈ l, 0 ≤ d := by
  intro l
  induction l with
  | nil => simp
  | cons d l ih =>
      simp only [List.map_cons, List.sum_cons, List.mem_cons]
      have h1 : 0 ≤ lossOf d := lossOf_nonneg d
      have h2 : 0 ≤ (l.map lossOf).sum := List.sum_nonneg (mem_map_lossOf_nonneg l)
      constructor
      · intro h
        have hd : lossOf d = 0 := by linarith
        have hl : (l.map lossOf).sum = 0 := by linarith
        intro x hx
        rcases hx with hx | hx
        · exact hx ▸ (lossOf_eq_zero_iff d).mp hd
        · exact (ih.mp hl) x hx
      · intro h
        have hd : lossOf d = 0 := (lossOf_eq_zero_iff d).mpr (h d (Or.inl rfl))
        have hl : (l.map lossOf).sum = 0 := ih.mpr (fun x hx => h x (Or.inr hx))
        rw [hd, hl, add_zero]

/-- Invariant of the Wilder smoothing fold for a period of at least two:
both averages stay nonnegative, and the loss average is zero exactly when it
started at zero and every folded delta was nonnegative. -/
lemma wilderFold_inv (periods : ℕ) (hp : 2 ≤ periods) :
    ∀ (rest : List ℚ) (init : ℚ × ℚ), 0 ≤ init.1 → 0 ≤ init.2 →
      0 ≤ (rest.foldl (rsiStep periods) init).1 ∧
      0 ≤ (rest.foldl (rsiStep periods) init).2 ∧
      ((rest.foldl (rsiStep periods) init).2 = 0 ↔
        init.2 = 0 ∧ ∀ d ∈ rest, 0 ≤ d) := by
  intro rest
  induction rest with
  | nil =>
      intro init h1 h2
      refine ⟨h1, h2, ?_⟩
      simp [h2]
  | cons d rest ih =>
      intro init h1 h2
      have hq2 : (2 : ℚ) ≤ (periods : ℚ) := by exact_mod_cast hp
      have hq0 : (0 : ℚ) < (periods : ℚ) := by linarith
      have hq1 : (0 : ℚ) < (periods : ℚ) - 1 := by linarith
      have hstep1 : 0 ≤ (rsiStep periods init d).1 := by
        unfold rsiStep
        have := gainOf_nonneg d
        positivity
      have hstep2 : 0 ≤ (rsiStep periods init d).2 := by
        unfold rsiStep
        have := lossOf_nonneg d
        positivity
      have hzero : (rsiStep periods init d).2 = 0 ↔ init.2 = 0 ∧ 0 ≤ d := by
        unfold rsiStep
        simp only
        rw [div_eq_zero_iff]
        have hl := lossOf_nonneg d
        constructor
        · intro h
          rcases h with h | h
          · have hml : 0 ≤ init.2 * ((periods : ℚ) - 1) := by positivity
            have ha : init.2 * ((periods : ℚ) - 1) = 0 := by linarith
            have hb : lossOf d = 0 := by linarith
            have hi : init.2 = 0 := by
              rcases mul_eq_zero.mp ha with h' | h'
              · exact h'
              · linarith
            exact ⟨hi, (lossOf_eq_zero_iff d).mp hb⟩
          · exact absurd h (by positivity)
        · intro ⟨hi, hd⟩
          left
          rw [hi, (lossOf_eq_zero_iff d).mpr hd]
          ring
      have h' := ih (rsiStep periods init d) hstep1 hstep2
      refine ⟨h'.1, h'.2.1, ?_⟩
      rw [List.foldl_cons, h'.2.2, hzero]
      constructor
      · intro ⟨⟨hi, hd⟩, hr⟩
        refine ⟨hi, ?_⟩
        intro x hx
        rcases List.mem_cons.mp hx with hx | hx
        · exact hx ▸ hd
        · exact hr x hx
      · intro ⟨hi, hall⟩
        exact ⟨⟨hi, hall d (List.mem_cons_self d rest)⟩,
          fun x hx => hall x (List.mem_cons_of_mem d hx)⟩

/-- C5: whenever calculateRSI returns a value for the default fourteen
period, the value lies in the interval from 0 to 100, and it equals 100
exactly when every delta of the series is nonnegative, equivalently exactly
when the computed average loss is zero. -/
theorem c5_rsi_range (prices : List ℚ) (v : ℚ)
    (h : calculateRSI prices 14 = some v) :
    0 ≤ v ∧ v ≤ 100 ∧ (v = 100 ↔ ∀ d ∈ deltas prices, 0 ≤ d) := by
  by_cases hl : prices.length < 14 + 1
  · simp [calculateRSI, hl] at h
  · rw [calculateRSI_eq_of_le prices 14 (not_lt.mp hl)] at h
    have hv : v = rsiFromAverages (wilderAveragesClaim prices 14) := (Option.some.inj h).symm
    subst hv
    have hinit1 : 0 ≤ (rsiInitialAvgClaim prices 14).1 := by
      unfold rsiInitialAvgClaim
      simp only
      have h0 : (0 : ℚ) ≤ (((deltas prices).take 14).map gainOf).sum :=
        List.sum_nonneg (mem_map_gainOf_nonneg _)
      positivity
    have hinit2 : 0 ≤ (rsiInitialAvgClaim prices 14).2 := by
      unfold rsiInitialAvgClaim
      simp only
      have h0 : (0 : ℚ) ≤ (((deltas prices).take 14).map lossOf).sum :=
        List.sum_nonneg (mem_map_lossOf_nonneg _)
      positivity
    have hiz : (rsiInitialAvgClaim prices 14).2 = 0 ↔ ∀ d ∈ (deltas prices).take 14, 0 ≤ d := by
      unfold rsiInitialAvgClaim
      simp only
      rw [div_eq_zero_iff, ← lossSum_eq_zero_iff]
      constructor
      · intro h'
        rcases h' with h' | h'
        · exact h'
        · exfalso
          norm_num at h'
      · exact Or.inl
    have hfold := wilderFold_inv 14 (by norm_num) ((deltas prices).drop 14)
      (rsiInitialAvgClaim prices 14) hinit1 hinit2
    have hWdef : wilderAveragesClaim prices 14 =
        ((deltas prices).drop 14).foldl (rsiStep 14) (rsiInitialAvgClaim prices 14) := rfl
    have hfz : (wilderAveragesClaim prices 14).2 = 0 ↔ ∀ d ∈ deltas prices, 0 ≤ d := by
      rw [hWdef, hfold.2.2, hiz]
      constructor
      · intro ⟨ht, hd⟩ x hx
        rcases List.mem_append.mp
            ((List.take_append_drop 14 (deltas prices)) ▸ hx) with hx' | hx'
        · exact ht x hx'
        · exact hd x hx'
      · intro hall
        constructor
        · exact fun x hx => hall x (List.mem_of_mem_take hx)
        · exact fun x hx => hall x (List.mem_of_mem_drop hx)
    unfold rsiFromAverages
    by_cases hz : (wilderAveragesClaim prices 14).2 = 0
    · rw [if_pos hz]
      exact ⟨by norm_num, le_refl _, ⟨fun _ => hfz.mp hz, fun _ => rfl⟩⟩
    · rw [if_neg hz]
      have hW1 : 0 ≤ (wilderAveragesClaim prices 14).1 := by
        rw [hWdef]
        exact hfold.1
      have hW2 : 0 ≤ (wilderAveragesClaim prices 14).2 := by
        rw [hWdef]
        exact hfold.2.1
      have hpos : 0 < (wilderAveragesClaim prices 14).2 := lt_of_le_of_ne hW2 (Ne.symm hz)
      have hrs : 0 ≤ (wilderAveragesClaim prices 14).1 / (wilderAveragesClaim prices 14).2 :=
        div_nonneg hW1 hpos.le
      have hden : (1 : ℚ) ≤ 1 + (wilderAveragesClaim prices 14).1 /
          (wilderAveragesClaim prices 14).2 := by linarith
      have hfrac_pos : 0 < 100 / (1 + (wilderAveragesClaim prices 14).1 /
          (wilderAveragesClaim prices 14).2) := by positivity
      have hfrac_le : 100 / (1 + (wilderAveragesClaim prices 14).1 /
          (wilderAveragesClaim prices 14).2) ≤ 100 := div_le_self (by norm_num) hden
      refine ⟨by linarith, by linarith, ?_⟩
      constructor
      · intro habs
        exfalso
        have : 100 / (1 + (wilderAveragesClaim prices 14).1 /
            (wilderAveragesClaim prices 14).2) = 0 := by linarith
        linarith
      · intro hall
        exact absurd (hfz.mpr hall) hz

/-- C5 witness at the flat price series: the RSI is 100 and every delta of
the series is zero. -/
theorem c5_rsi_range_witness :
    0 ≤ (100 : ℚ) ∧ (100 : ℚ) ≤ 100 ∧
      ((100 : ℚ) = 100 ↔ ∀ d ∈ deltas flatPrices, 0 ≤ d) :=
  c5_rsi_range flatPrices 100 (by
    norm_num [calculateRSI, flatPrices, deltas, rsiStep, gainOf, lossOf, List.replicate])

/-! ## Consolidation window claim -/

/-- Index found by firstIdx is within the list. -/
lemma firstIdx_lt_length {α : Type} (p : α → Bool) :
    ∀ (l : List α) (j : ℕ), firstIdx p l = some j → j < l.length := by
  intro l
  induction l with
  | nil => intro j h; simp [firstIdx] at h
  | cons x xs ih =>
      intro j h
      by_cases hp : p x
      · rw [firstIdx, if_pos hp] at h
        injection h with h
        subst h
        simp
      · rw [firstIdx, if_neg hp] at h
        rcases hj : firstIdx p xs with _ | j'
        · rw [hj] at h
          simp at h
        · rw [hj] at h
          simp at h
          subst h
          have := ih j' hj
          simp
          omega

/-- Trading-day distance never exceeds the window length minus one. -/
lemma tradingDaysSince_le (lookback : List ℚ) (threshold : ℚ) :
    tradingDaysSince lookback threshold ≤ lookback.length - 1 := by
  unfold tradingDaysSince
  cases hj : firstIdx (fun c => threshold ≤ c) lookback.reverse with
  | none =>
      show lookback.length - 1 ≤ lookback.length - 1
      exact le_refl _
  | some j =>
      show j ≤ lookback.length - 1
      have := firstIdx_lt_length _ _ _ hj
      rw [List.length_reverse] at this
      omega

set_option maxRecDepth 4000 in
/-- C9: on a window of at least 22 closes the function returns a record
whose months in consolidation lie in the interval from 0 to 251 / 21, below
twelve months and far below the configured maximum of 36 months, because
the lookback window is capped at 252 entries; shorter series give no
record instead of an error. -/
theorem c9_consolidation_bounds (closes : List ℚ) :
    (22 ≤ closes.length →
      ∃ r, calculate52wHighAndConsolidation closes = some r ∧
        0 ≤ r.monthsInConsolidation ∧ r.monthsInConsolidation ≤ 251 / 21 ∧
        r.monthsInConsolidation < 36) ∧
    (closes.length < 22 → calculate52wHighAndConsolidation closes = none) := by
  constructor
  · intro h
    have h' : ¬ closes.length < 22 := not_lt.mpr h
    have hlb : (closes.drop (closes.length - 252)).length ≤ 252 := by
      rw [List.length_drop]
      omega
    have hdays : tradingDaysSince (closes.drop (closes.length - 252))
        (listMax (closes.drop (closes.length - 252)) * (98 / 100)) ≤ 251 := by
      have := tradingDaysSince_le (closes.drop (closes.length - 252))
        (listMax (closes.drop (closes.length - 252)) * (98 / 100))
      omega
    have heq : calculate52wHighAndConsolidation closes = some
        ⟨listMax (closes.drop (closes.length - 252)),
         (if 0 < listMax (closes.drop (closes.length - 252)) then
            ((closes.drop (closes.length - 252)).getLast?.getD 0 -
              listMax (closes.drop (closes.length - 252))) /
              listMax (closes.drop (closes.length - 252)) * 100 else 0),
         ((tradingDaysSince (closes.drop (closes.length - 252))
            (listMax (closes.drop (closes.length - 252)) * (98 / 100)) : ℕ) : ℚ) / 21⟩ := by
      simp only [calculate52wHighAndConsolidation, h', if_false]
    refine ⟨_, heq, ?_, ?_, ?_⟩
    · show (0 : ℚ) ≤ ((tradingDaysSince (closes.drop (closes.length - 252))
          (listMax (closes.drop (closes.length - 252)) * (98 / 100)) : ℕ) : ℚ) / 21
      positivity
    · show ((tradingDaysSince (closes.drop (closes.length - 252))
          (listMax (closes.drop (closes.length - 252)) * (98 / 100)) : ℕ) : ℚ) / 21 ≤ 251 / 21
      have hq : ((tradingDaysSince (closes.drop (closes.length - 252))
          (listMax (closes.drop (closes.length - 252)) * (98 / 100)) : ℕ) : ℚ) ≤ 251 := by
        exact_mod_cast hdays
      have h21 : (0 : ℚ) < 21 := by norm_num
      exact (div_le_div_iff_of_pos_right h21).mpr hq
    · show ((tradingDaysSince (closes.drop (closes.length - 252))
          (listMax (closes.drop (closes.length - 252)) * (98 / 100)) : ℕ) : ℚ) / 21 < 36
      have hq : ((tradingDaysSince (closes.drop (closes.length - 252))
          (listMax (closes.drop (closes.length - 252)) * (98 / 100)) : ℕ) : ℚ) ≤ 251 := by
        exact_mod_cast hdays
      have hd21 : ((tradingDaysSince (closes.drop (closes.length - 252))
          (listMax (closes.drop (closes.length - 252)) * (98 / 100)) : ℕ) : ℚ) / 21 ≤
          251 / 21 := by
        have h21 : (0 : ℚ) < 21 := by norm_num
        exact (div_le_div_iff_of_pos_right h21).mpr hq
      have h36 : (251 : ℚ) / 21 < 36 := by norm_num
      linarith
  · intro h
    simp [calculate52wHighAndConsolidation, h]

/-- Window of 22 equal closes, used to witness the consolidation claim. -/
def flatCloses : List ℚ := List.replicate 22 1

/-- C9 witness at a concrete window of 22 closes. -/
theorem c9_consolidation_bounds_witness :
    ∃ r, calculate52wHighAndConsolidation flatCloses = some r ∧
      0 ≤ r.monthsInConsolidation ∧ r.monthsInConsolidation ≤ 251 / 21 ∧
      r.monthsInConsolidation < 36 :=
  (c9_consolidation_bounds flatCloses).1 (by decide)

/-! ## Provider adapters (services/marketData.ts)

JavaScript numbers that can be non-finite are modelled as Option rationals:
none stands for NaN (a field that did not parse, or a division without a
well-defined finite result). -/

/-- JavaScript or-fallback on a number: NaN (none) and 0 are falsy and give
the default. -/
def jsOr (x : Option ℚ) (d : ℚ) : ℚ :=
  match x with
  | Option.none => d
  | some v => if v = 0 then d else v

/-- Division that fails on a zero denominator, where JavaScript would
produce Infinity or NaN. -/
def qdiv (x y : ℚ) : Option ℚ := if y = 0 then none else some (x / y)

/-- Record produced by the provider adapters, mirroring the StockData
object literals they build; avgVolume and rvol may be non-finite. -/
structure FetchedStock where
  ticker : String
  currentVolume : ℚ
  avgVolume : Option ℚ
  rvol : Option ℚ
  priceChange : ℚ
  lastPrice : ℚ
  sma50 : Option ℚ := Option.none
  sma200 : Option ℚ := Option.none
  rsi : Option ℚ := Option.none
  deriving DecidableEq, Repr

/-- Parsed shape of a Twelve Data quote response: isError models a status of
error, close is none when the close field is falsy, and the numeric fields
are none when parseFloat yields NaN. -/
structure TwelveQuote where
  isError : Bool
  close : Option ℚ
  volume : Option ℚ
  averageVolume : Option ℚ
  percentChange : Option ℚ
  deriving DecidableEq, Repr

/-- Translation of fetchFromTwelveData: rejects error or close-less quotes;
otherwise builds the record, with the average volume falling back through
the volume to 1 and the relative volume dividing the raw volume by the
average-or-1 denominator. -/
def fetchFromTwelveData (ticker : String) (q : TwelveQuote) : Option FetchedStock :=
  if q.isError then none
  else
    match q.close with
    | Option.none => none
    | some c => some
        { ticker := ticker
          currentVolume := jsOr q.volume 0
          avgVolume := some (jsOr q.averageVolume (jsOr q.volume 1))
          rvol := q.volume.bind (fun v => qdiv v (jsOr q.averageVolume 1))
          priceChange := jsOr q.percentChange 0
          lastPrice := jsOr (some c) 0 }

/-- Parsed shape of a Yahoo chart response: ok models a present result with
a present volume indicator array; the raw arrays may hold nulls; a missing
close array is the empty list. -/
structure ChartResponse where
  ok : Bool
  volume : List (Option ℚ)
  close : List (Option ℚ)
  regularMarketPrice : Option ℚ
  deriving DecidableEq, Repr

/-- Volumes kept by the chart adapter: non-null and positive. -/
def chartVolumes (r : ChartResponse) : List ℚ :=
  (r.volume.filterMap id).filter (fun v => 0 < v)

/-- Closes kept by the chart adapter: non-null and positive. -/
def chartCloses (r : ChartResponse) : List ℚ :=
  (r.close.filterMap id).filter (fun c => 0 < c)

/-- Baseline of the chart adapter: mean of the historical volumes, all
volumes except the most recent; none models the NaN of an empty mean. -/
def chartBaseline (r : ChartResponse) : Option ℚ :=
  qdiv (chartVolumes r).dropLast.sum ((chartVolumes r).dropLast.length : ℚ)

/-- Percent price change of the chart adapter: change from the previous
close, zero when the previous close is not positive. -/
def chartPriceChange (r : ChartResponse) : ℚ :=
  let currentClose := (chartCloses r).getLast?.getD 0
  let previousClose := ((chartCloses r).get? ((chartCloses r).length - 2)).getD 0
  if 0 < previousClose then ((currentClose - previousClose) / previousClose) * 100 else 0

/-- Translation of fetchFromYahooChart: rejects a missing result or volume
array, fewer than 5 usable volumes or 2 usable closes, and a baseline that
is exactly zero; otherwise builds the record with the relative volume as
the current volume over the baseline, a NaN baseline propagating into the
record as the zero check only catches an exact zero. -/
def fetchFromYahooChart (ticker : String) (r : ChartResponse) : Option FetchedStock :=
  if r.ok = false ∨ r.volume = [] then none
  else if (chartVolumes r).length < 5 ∨ (chartCloses r).length < 2 then none
  else if chartBaseline r = some 0 then none
  else some
    { ticker := ticker
      currentVolume := jsOr (chartVolumes r).getLast? 0
      avgVolume := chartBaseline r
      rvol := (chartBaseline r).bind (qdiv (jsOr (chartVolumes r).getLast? 0))
      priceChange := chartPriceChange r
      lastPrice := jsOr r.regularMarketPrice ((chartCloses r).getLast?.getD 0)
      sma50 := calculateSMA (chartCloses r) 50
      sma200 := calculateSMA (chartCloses r) 200
      rsi := calculateRSI (chartCloses r) 14 }

/-- Or-fallback with a nonzero default is nonzero. -/
lemma jsOr_ne_zero (x : Option ℚ) (d : ℚ) (hd : d ≠ 0) : jsOr x d ≠ 0 := by
  cases x with
  | none => simpa [jsOr] using hd
  | some v =>
      by_cases hv : v = 0
      · simpa [jsOr, hv] using hd
      · simp [jsOr, hv]

/-- Every volume kept by the chart adapter is positive. -/
lemma chartVolumes_pos (r : ChartResponse) : ∀ v ∈ chartVolumes r, 0 < v := by
  intro v hv
  unfold chartVolumes at hv
  have := (List.mem_filter.mp hv).2
  simpa using this

/-- With at least five usable volumes the chart baseline is a positive
rational. -/
lemma chartBaseline_pos (r : ChartResponse) (h : 5 ≤ (chartVolumes r).length) :
    ∃ a, chartBaseline r = some a ∧ 0 < a := by
  unfold chartBaseline qdiv
  have hlen : (chartVolumes r).dropLast.length = (chartVolumes r).length - 1 :=
    List.length_dropLast _
  have hlen4 : 4 ≤ (chartVolumes r).dropLast.length := by omega
  have hne : (chartVolumes r).dropLast ≠ [] := by
    intro h0
    rw [h0] at hlen4
    simp at hlen4
  have hpos : ∀ v ∈ (chartVolumes r).dropLast, 0 < v := fun v hv =>
    chartVolumes_pos r v (List.dropLast_subset _ hv)
  have hsum : 0 < (chartVolumes r).dropLast.sum := List.sum_pos _ hpos hne
  have hlq : (0 : ℚ) < ((chartVolumes r).dropLast.length : ℚ) := by
    have : 0 < (chartVolumes r).dropLast.length := by omega
    exact_mod_cast this
  rw [if_neg (ne_of_gt hlq)]
  exact ⟨_, rfl, div_pos hsum hlq⟩

/-- Concrete Twelve Data quote with a close but no parseable volume. -/
def noVolumeQuote : TwelveQuote :=
  { isError := false
    close := some 5
    volume := Option.none
    averageVolume := Option.none
    percentChange := Option.none }

/-- C3 counterexample: the Twelve Data adapter produces a record for a
quote whose volume field does not parse, and the relative volume of that
record is NaN, so a record with a non-finite relative volume can be
produced. -/
theorem c3_counterexample :
    ∃ s, fetchFromTwelveData "TSLA" noVolumeQuote = some s ∧ s.rvol = Option.none :=
  ⟨_, rfl, rfl⟩

/-- C3 (amended): every record the Yahoo chart adapter produces has a
strictly positive finite baseline and a finite relative volume equal to the
current volume over that baseline, so a zero baseline never survives; the
Twelve Data adapter never stores a zero baseline and never divides by zero,
so its relative volume is never Infinity, and it is finite exactly when the
volume field of the quote parses — a non-parsing volume yields NaN. -/
theorem c3_adapters_amended :
    (∀ (t : String) (r : ChartResponse) (s : FetchedStock),
      fetchFromYahooChart t r = some s →
        ∃ a, s.avgVolume = some a ∧ 0 < a ∧ s.rvol = some (s.currentVolume / a)) ∧
    (∀ (t : String) (q : TwelveQuote) (s : FetchedStock),
      fetchFromTwelveData t q = some s →
        s.avgVolume ≠ some 0 ∧ (s.rvol.isSome ↔ q.volume.isSome)) := by
  constructor
  · intro t r s h
    unfold fetchFromYahooChart at h
    by_cases h1 : r.ok = false ∨ r.volume = []
    · rw [if_pos h1] at h
      exact absurd h (by simp)
    · rw [if_neg h1] at h
      by_cases h2 : (chartVolumes r).length < 5 ∨ (chartCloses r).length < 2
      · rw [if_pos h2] at h
        exact absurd h (by simp)
      · rw [if_neg h2] at h
        push_neg at h2
        obtain ⟨a, ha, hapos⟩ := chartBaseline_pos r h2.1
        have hnz : ¬ chartBaseline r = some 0 := by
          rw [ha]
          intro hcon
          exact absurd (Option.some.inj hcon) (ne_of_gt hapos)
        rw [if_neg hnz] at h
        obtain rfl := (Option.some.inj h)
        refine ⟨a, ha, hapos, ?_⟩
        show (chartBaseline r).bind (qdiv (jsOr (chartVolumes r).getLast? 0)) =
          some (jsOr (chartVolumes r).getLast? 0 / a)
        rw [ha]
        simp [qdiv, ne_of_gt hapos]
  · intro t q s h
    unfold fetchFromTwelveData at h
    by_cases he : q.isError
    · rw [if_pos he] at h
      exact absurd h (by simp)
    · rw [if_neg he] at h
      cases hc : q.close with
      | none =>
          rw [hc] at h
          exact absurd h (by simp)
      | some c =>
          rw [hc] at h
          obtain rfl := (Option.some.inj h)
          constructor
          · show some (jsOr q.averageVolume (jsOr q.volume 1)) ≠ some 0
            intro hcon
            exact jsOr_ne_zero _ _ (jsOr_ne_zero _ _ one_ne_zero) (Option.some.inj hcon)
          · show (q.volume.bind (fun v => qdiv v (jsOr q.averageVolume 1))).isSome ↔
              q.volume.isSome
            cases q.volume with
            | none => simp
            | some v =>
                have hD : jsOr q.averageVolume 1 ≠ 0 := jsOr_ne_zero _ _ one_ne_zero
                simp [qdiv, hD]

/-- Concrete Yahoo chart response with five usable volumes and two usable
closes. -/
def chartSample : ChartResponse :=
  { ok := true
    volume := [some 1, some 1, some 1, some 1, some 2]
    close := [some 1, some 2]
    regularMarketPrice := Option.none }

/-- Record the chart adapter produces for the sample response. -/
def chartSampleStock : FetchedStock :=
  { ticker := "AAPL"
    currentVolume := 2
    avgVolume := some 1
    rvol := some 2
    priceChange := 100
    lastPrice := 2 }

/-- Concrete Twelve Data quote whose volume and average volume both parse. -/
def goodQuote : TwelveQuote :=
  { isError := false
    close := some 5
    volume := some 10
    averageVolume := some 4
    percentChange := some 1 }

/-- Record the Twelve Data adapter produces for the good quote. -/
def goodQuoteStock : FetchedStock :=
  { ticker := "MSFT"
    currentVolume := 10
    avgVolume := some 4
    rvol := some (5 / 2)
    priceChange := 1
    lastPrice := 5 }

/-- Usable volumes of the sample response. -/
lemma chartSample_volumes : chartVolumes chartSample = [1, 1, 1, 1, 2] := by
  norm_num [chartVolumes, chartSample, List.filterMap_cons, List.filter_cons]

/-- Usable closes of the sample response. -/
lemma chartSample_closes : chartCloses chartSample = [1, 2] := by
  norm_num [chartCloses, chartSample, List.filterMap_cons, List.filter_cons]

/-- Baseline of the sample response. -/
lemma chartSample_baseline : chartBaseline chartSample = some 1 := by
  rw [chartBaseline, chartSample_volumes]
  norm_num [qdiv, List.dropLast]

/-- Evaluation of the chart adapter at the sample response. -/
lemma chartSample_eval : fetchFromYahooChart "AAPL" chartSample = some chartSampleStock := by
  unfold fetchFromYahooChart chartPriceChange
  rw [chartSample_volumes, chartSample_closes, chartSample_baseline]
  norm_num [chartSample, chartSampleStock, qdiv, jsOr, calculateSMA, calculateRSI,
    List.getLast?, List.dropLast]
  exact fun h => absurd h (by simp)

/-- Evaluation of the Twelve Data adapter at the good quote. -/
lemma goodQuote_eval : fetchFromTwelveData "MSFT" goodQuote = some goodQuoteStock := by
  norm_num [fetchFromTwelveData, goodQuote, goodQuoteStock, jsOr, qdiv]

/-- C3 amended witness at the two concrete adapter inputs. -/
theorem c3_adapters_amended_witness :
    (∃ a, chartSampleStock.avgVolume = some a ∧ 0 < a ∧
      chartSampleStock.rvol = some (chartSampleStock.currentVolume / a)) ∧
    (goodQuoteStock.avgVolume ≠ some 0 ∧
      (goodQuoteStock.rvol.isSome ↔ goodQuote.volume.isSome)) :=
  ⟨c3_adapters_amended.1 "AAPL" chartSample chartSampleStock chartSample_eval,
   c3_adapters_amended.2 "MSFT" goodQuote goodQuoteStock goodQuote_eval⟩

/-! ## Retry wrapper (utils/errorHandler.ts)

The asynchronous operation is modelled as a map from the attempt number,
starting at 1, to that invocation outcome. The trace records the returned
or thrown value, the number of invocations, and the sleeps performed; an
error of none models the undefined last error thrown when the loop never
runs. -/

/-- Observable behaviour of one withRetry run. -/
structure RetryTrace (ε α : Type) where
  result : Except (Option ε) α
  calls : ℕ
  delays : List ℚ
  deriving Repr

/-- Translation of the withRetry loop: fuel counts the remaining iterations
of the for loop over attempts 1 to maxRetries; a success returns at once, a
failure on the last attempt rethrows it, and any other failure sleeps
baseDelayMs times 2 to the attempt minus 1 and retries. -/
def withRetryGo {ε α : Type} (fn : ℕ → Except ε α) (maxRetries : ℕ) (baseDelayMs : ℚ) :
    ℕ → ℕ → RetryTrace ε α
  | 0, _ => ⟨.error Option.none, 0, []⟩
  | fuel + 1, attempt =>
    match fn attempt with
    | .ok v => ⟨.ok v, 1, []⟩
    | .error e =>
      if attempt = maxRetries then ⟨.error (some e), 1, []⟩
      else
        let t := withRetryGo fn maxRetries baseDelayMs fuel (attempt + 1)
        ⟨t.result, t.calls + 1, baseDelayMs * 2 ^ (attempt - 1) :: t.delays⟩

/-- Translation of withRetry: run the attempt loop from attempt 1 with
maxRetries iterations available. -/
def withRetry {ε α : Type} (fn : ℕ → Except ε α) (maxRetries : ℕ) (baseDelayMs : ℚ) :
    RetryTrace ε α :=
  withRetryGo fn maxRetries baseDelayMs maxRetries 1

/-- Unfolding of the loop on a successful attempt. -/
lemma withRetryGo_ok {ε α : Type} {fn : ℕ → Except ε α} {m : ℕ} {b : ℚ}
    {fuel attempt : ℕ} {v : α} (hfn : fn attempt = .ok v) :
    withRetryGo fn m b (fuel + 1) attempt = ⟨.ok v, 1, []⟩ := by
  simp [withRetryGo, hfn]

/-- Unfolding of the loop on a failure of the final attempt. -/
lemma withRetryGo_error_last {ε α : Type} {fn : ℕ → Except ε α} {m : ℕ} {b : ℚ}
    {fuel attempt : ℕ} {e : ε} (hfn : fn attempt = .error e) (ha : attempt = m) :
    withRetryGo fn m b (fuel + 1) attempt = ⟨.error (some e), 1, []⟩ := by
  subst ha
  simp [withRetryGo, hfn]

/-- Unfolding of the loop on a failure of a non-final attempt. -/
lemma withRetryGo_error_next {ε α : Type} {fn : ℕ → Except ε α} {m : ℕ} {b : ℚ}
    {fuel attempt : ℕ} {e : ε} (hfn : fn attempt = .error e) (ha : ¬ attempt = m) :
    withRetryGo fn m b (fuel + 1) attempt =
      ⟨(withRetryGo fn m b fuel (attempt + 1)).result,
       (withRetryGo fn m b fuel (attempt + 1)).calls + 1,
       b * 2 ^ (attempt - 1) :: (withRetryGo fn m b fuel (attempt + 1)).delays⟩ := by
  simp [withRetryGo, hfn, ha]

/-- Behaviour of the attempt loop from any attempt: at most fuel and at
least one invocation, a success characterized by its failing prefix, the
doubling delay schedule, and the rethrow of the final error on exhaustion. -/
lemma withRetryGo_spec {ε α : Type} (fn : ℕ → Except ε α) (m : ℕ) (b : ℚ) :
    ∀ (fuel attempt : ℕ), 1 ≤ attempt → attempt ≤ m → attempt + fuel = m + 1 →
      ((withRetryGo fn m b fuel attempt).calls ≤ fuel) ∧
      (1 ≤ (withRetryGo fn m b fuel attempt).calls) ∧
      (∀ v, (withRetryGo fn m b fuel attempt).result = .ok v →
        fn (attempt + (withRetryGo fn m b fuel attempt).calls - 1) = .ok v ∧
        ∀ i, attempt ≤ i → i < attempt + (withRetryGo fn m b fuel attempt).calls - 1 →
          ∃ e, fn i = .error e) ∧
      ((withRetryGo fn m b fuel attempt).delays =
        (List.range ((withRetryGo fn m b fuel attempt).calls - 1)).map
          (fun k => b * 2 ^ (attempt - 1 + k))) ∧
      ((∀ i, attempt ≤ i → i ≤ m → ∃ e, fn i = .error e) →
        ∃ e, fn m = .error e ∧
          (withRetryGo fn m b fuel attempt).result = .error (some e)) := by
  intro fuel
  induction fuel with
  | zero =>
      intro attempt h1 h2 h3
      omega
  | succ fuel ih =>
      intro attempt h1 h2 h3
      cases hfn : fn attempt with
      | ok v =>
          rw [withRetryGo_ok hfn]
          dsimp only
          refine ⟨by omega, le_refl _, ?_, by simp, ?_⟩
          · intro w hw
            have hv : v = w := by
              injection hw
            subst hv
            refine ⟨by simpa using hfn, ?_⟩
            intro i hi hi'
            omega
          · intro hall
            obtain ⟨e, he⟩ := hall attempt (le_refl _) h2
            rw [hfn] at he
            exact absurd he (by simp)
      | error e =>
          by_cases ha : attempt = m
          · rw [withRetryGo_error_last hfn ha]
            dsimp only
            refine ⟨by omega, le_refl _, ?_, by simp, ?_⟩
            · intro w hw
              exact absurd hw (by simp)
            · intro hall
              exact ⟨e, ha ▸ hfn, rfl⟩
          · have hlt : attempt < m := lt_of_le_of_ne h2 ha
            have ihs := ih (attempt + 1) (by omega) (by omega) (by omega)
            rw [withRetryGo_error_next hfn ha]
            dsimp only
            obtain ⟨ihc, ihc1, ihok, ihd, ihex⟩ := ihs
            refine ⟨by simpa using Nat.add_le_add_right ihc 1, by omega, ?_, ?_, ?_⟩
            · intro w hw
              obtain ⟨hsucc, hfail⟩ := ihok w hw
              have harith : attempt + ((withRetryGo fn m b fuel (attempt + 1)).calls + 1) - 1 =
                  attempt + 1 + (withRetryGo fn m b fuel (attempt + 1)).calls - 1 := by
                omega
              refine ⟨by rw [harith]; exact hsucc, ?_⟩
              intro i hi hi'
              by_cases hia : i = attempt
              · exact ⟨e, hia ▸ hfn⟩
              · exact hfail i (by omega) (by omega)
            · show b * 2 ^ (attempt - 1) ::
                  (withRetryGo fn m b fuel (attempt + 1)).delays =
                (List.range ((withRetryGo fn m b fuel (attempt + 1)).calls + 1 - 1)).map
                  (fun k => b * 2 ^ (attempt - 1 + k))
              rw [ihd]
              have hc1 : (withRetryGo fn m b fuel (attempt + 1)).calls + 1 - 1 =
                  ((withRetryGo fn m b fuel (attempt + 1)).calls - 1) + 1 := by
                omega
              rw [hc1, List.range_succ_eq_map, List.map_cons, List.map_map]
              refine List.cons_eq_cons.mpr ⟨?_, ?_⟩
              · norm_num
              · apply List.map_congr_left
                intro k hk
                show b * 2 ^ (attempt + 1 - 1 + k) = b * 2 ^ (attempt - 1 + (k + 1))
                have hxy : attempt + 1 - 1 + k = attempt - 1 + (k + 1) := by omega
                rw [hxy]
            · intro hall
              obtain ⟨e', he', hres⟩ := ihex (fun i hi hi' => hall i (by omega) hi')
              exact ⟨e', he', hres⟩

/-- C8: for any operation and positive retry budget, the wrapper makes at
most maxRetries invocations; a returned success comes from the invocation
numbered by the call count with every earlier invocation failing, so no
further attempts happen after a success; the sleep before the k-th retry is
baseDelayMs times 2 to the k minus 1; and when every attempt fails the last
error is the one thrown. -/
theorem c8_withRetry_spec {ε α : Type} (fn : ℕ → Except ε α) (m : ℕ) (b : ℚ)
    (hm : 1 ≤ m) :
    ((withRetry fn m b).calls ≤ m) ∧
    (∀ v, (withRetry fn m b).result = .ok v →
      fn (withRetry fn m b).calls = .ok v ∧
      ∀ i, 1 ≤ i → i < (withRetry fn m b).calls → ∃ e, fn i = .error e) ∧
    ((withRetry fn m b).delays =
      (List.range ((withRetry fn m b).calls - 1)).map (fun k => b * 2 ^ k)) ∧
    ((∀ i, 1 ≤ i → i ≤ m → ∃ e, fn i = .error e) →
      ∃ e, fn m = .error e ∧ (withRetry fn m b).result = .error (some e)) := by
  have hw : withRetry fn m b = withRetryGo fn m b m 1 := rfl
  rw [hw]
  have h := withRetryGo_spec fn m b m 1 (le_refl _) hm (by omega)
  obtain ⟨hc, hc1, hok, hd, hex⟩ := h
  refine ⟨hc, ?_, ?_, hex⟩
  · intro v hv
    obtain ⟨hsucc, hfail⟩ := hok v hv
    have harith : 1 + (withRetryGo fn m b m 1).calls - 1 = (withRetryGo fn m b m 1).calls := by
      omega
    rw [harith] at hsucc
    refine ⟨hsucc, ?_⟩
    intro i hi hi'
    exact hfail i hi (by omega)
  · rw [hd]
    apply List.map_congr_left
    intro k hk
    norm_num

/-- Operation failing on the first attempt and succeeding on the second. -/
def failingThenOk : ℕ → Except String ℕ :=
  fun k => if k = 1 then .error "transient" else .ok 7

/-- C8 witness at the concrete operation, three retries and base delay 1. -/
theorem c8_withRetry_spec_witness :
    ((withRetry failingThenOk 3 1).calls ≤ 3) ∧
    (∀ v, (withRetry failingThenOk 3 1).result = .ok v →
      failingThenOk (withRetry failingThenOk 3 1).calls = .ok v ∧
      ∀ i, 1 ≤ i → i < (withRetry failingThenOk 3 1).calls →
        ∃ e, failingThenOk i = .error e) ∧
    ((withRetry failingThenOk 3 1).delays =
      (List.range ((withRetry failingThenOk 3 1).calls - 1)).map (fun k => 1 * 2 ^ k)) ∧
    ((∀ i, 1 ≤ i → i ≤ 3 → ∃ e, failingThenOk i = .error e) →
      ∃ e, failingThenOk 3 = .error e ∧
        (withRetry failingThenOk 3 1).result = .error (some e)) :=
  c8_withRetry_spec failingThenOk 3 1 (by norm_num)

/-! ## Watchlist CSV parser (config/index.ts) -/

/-- Ticker entry parsed from the watchlist sheet. -/
structure TickerConfig where
  symbol : String
  sector : String
  deriving DecidableEq, Repr

/-- Stripping of one surrounding quote pair, as the global replace of a
leading and a trailing quote does. -/
def stripQuotes (s : String) : String :=
  let s1 := if s.startsWith "\"" then s.drop 1 else s
  if s1.endsWith "\"" then s1.dropRight 1 else s1

/-- Whether the first character list starts with the second. -/
def leadsWith : List Char → List Char → Bool
  | _, [] => true
  | [], _ :: _ => false
  | a :: as, b :: bs => a == b && leadsWith as bs

/-- Whether the second character list occurs inside the first. -/
def hasSubList (pat : List Char) : List Char → Bool
  | [] => leadsWith [] pat
  | c :: t => leadsWith (c :: t) pat || hasSubList pat t

/-- Substring containment on strings, modelling the includes check. -/
def strHasSub (s pat : String) : Bool := hasSubList pat.toList s.toList

/-- Translation of the isHeaderRow check: the first cell, lowercased, is or
contains symbol or sector. -/
def isHeaderRow (cells : List String) : Bool :=
  (cells.headD "").toLower == "symbol" || (cells.headD "").toLower == "sector" ||
    strHasSub ((cells.headD "").toLower) "symbol" ||
    strHasSub ((cells.headD "").toLower) "sector"

/-- Lines of the sheet: split on newlines, trimmed, blanks removed. The
regex of the source also eats a carriage return before each newline, which
the trim removes here. -/
def splitLines (csv : String) : List String :=
  ((csv.split (· == '\n')).map String.trim).filter (fun l => l ≠ "")

/-- Cells of one line: split on commas, trimmed, quotes stripped. -/
def parseRow (line : String) : List String :=
  (line.split (· == ',')).map (fun cell => stripQuotes cell.trim)

/-- Entry built from one row: none when Column A is blank, with Column B
defaulting to Other when blank. -/
def rowTicker (cells : List String) : Option TickerConfig :=
  if (cells.headD "").trim = "" then Option.none
  else some ⟨(cells.headD "").trim,
    if (cells.getD 1 "").trim = "" then "Other" else (cells.getD 1 "").trim⟩

/-- Entries collected by the row loop of parseWatchlistCsv, after optional
header skipping. -/
def parsedTickers (csv : String) : List TickerConfig :=
  (((splitLines csv).map parseRow).drop
    (if isHeaderRow (((splitLines csv).map parseRow).headD []) then 1 else 0)).filterMap
    rowTicker

/-- Translation of parseWatchlistCsv: an empty sheet and a sheet without a
valid ticker row raise; otherwise the collected entries are returned. -/
def parseWatchlistCsv (csv : String) : Except String (List TickerConfig) :=
  if splitLines csv = [] then .error "Watchlist sheet is empty."
  else if parsedTickers csv = [] then
    .error "Watchlist sheet has no valid ticker rows (Column A = symbol)."
  else .ok (parsedTickers csv)

/-- Every entry the row loop produces has a nonblank symbol and a nonblank
sector. -/
lemma rowTicker_props (cells : List String) (t : TickerConfig)
    (h : rowTicker cells = some t) : t.symbol ≠ "" ∧ t.sector ≠ "" := by
  unfold rowTicker at h
  by_cases hs : (cells.headD "").trim = ""
  · rw [if_pos hs] at h
    exact absurd h (by simp)
  · rw [if_neg hs] at h
    obtain rfl := Option.some.inj h
    refine ⟨hs, ?_⟩
    by_cases hsec : (cells.getD 1 "").trim = ""
    · show (if (cells.getD 1 "").trim = "" then "Other" else (cells.getD 1 "").trim) ≠ ""
      rw [if_pos hsec]
      decide
    · show (if (cells.getD 1 "").trim = "" then "Other" else (cells.getD 1 "").trim) ≠ ""
      rw [if_neg hsec]
      exact hsec

/-- C10: for every input string the parser either raises an error, or
returns a nonempty list in which every entry has a nonblank symbol and a
nonblank sector, the sector defaulting to Other when Column B is blank; it
never returns an empty list and never an entry with an empty symbol. -/
theorem c10_parse_watchlist (csv : String) :
    (∃ e, parseWatchlistCsv csv = .error e) ∨
    (∃ ts, parseWatchlistCsv csv = .ok ts ∧ ts ≠ [] ∧
      ∀ t ∈ ts, t.symbol ≠ "" ∧ t.sector ≠ "") := by
  by_cases h1 : splitLines csv = []
  · left
    refine ⟨"Watchlist sheet is empty.", ?_⟩
    unfold parseWatchlistCsv
    rw [if_pos h1]
  · by_cases h2 : parsedTickers csv = []
    · left
      refine ⟨"Watchlist sheet has no valid ticker rows (Column A = symbol).", ?_⟩
      unfold parseWatchlistCsv
      rw [if_neg h1, if_pos h2]
    · right
      refine ⟨parsedTickers csv, ?_, h2, ?_⟩
      · unfold parseWatchlistCsv
        rw [if_neg h1, if_neg h2]
      · intro t ht
        unfold parsedTickers at ht
        obtain ⟨cells, _, hrt⟩ := List.mem_filterMap.mp ht
        exact rowTicker_props cells t hrt

end SVR
